import Mathlib

/-!
Verification of the murmur daemon against its natural-language specification.

This file is a shallow embedding of the relevant Rust sources of the murmur
repository (crates murmur-daemon, murmur-providers, murmur-voice and
murmur-protocol) together with theorems settling the specification claims.

Conventions of the embedding:
* machine integers (`u64`, `usize`, `i32`) are modelled as `Nat`/`Int`, with
  reduction modulo `2 ^ 64` made explicit where the Rust code relies on
  wrapping `u64` arithmetic (the SipHash embedding below);
* `f64` scores and confidences are modelled as rationals; every numeric fact
  proved about them here (signs, comparisons against 0, 1/2 and 1 for
  multiples of 1/10) agrees with the IEEE-754 double evaluation of the
  corresponding Rust expressions;
* `std::time::Instant` / `SystemTime` are modelled by explicit `Nat`
  timestamps passed as arguments (monotonic seconds);
* fallible effects (HTTP calls, subprocesses, serde decoding) are modelled by
  explicit outcome values passed to the embedded function, one constructor per
  distinct failure shape distinguished by the source.
-/

namespace Murmur

/-! ## Protocol data model (murmur-protocol) -/

/-- `CompletionKind` from murmur-protocol completion.rs. -/
inductive CompletionKind
  | command
  | argument
  | path
  | fullCommand
  | code
deriving DecidableEq

/-- `CompletionItem` from murmur-protocol completion.rs.  The `f64` score is
modelled as a rational. -/
structure CompletionItem where
  text : String
  description : Option String
  kind : CompletionKind
  score : ℚ
deriving DecidableEq

/-- `CompletionResponse` from murmur-protocol completion.rs. -/
structure CompletionResponse where
  items : List CompletionItem
  provider : String
  latency_ms : Nat
  cached : Bool
deriving DecidableEq

/-- `CompletionRequest` from murmur-protocol completion.rs. -/
structure CompletionRequest where
  input : String
  cursor_pos : Nat
  cwd : String
  history : List String
  shell : Option String
deriving DecidableEq

/-! ## Completion cache (murmur-daemon/src/cache.rs)

`CompletionCache` wraps `lru::LruCache<u64, CacheEntry>`.  The LRU cache is
modelled as an association list ordered most-recently-used first; keys of an
`LruCache` are unique, so removing a key by filtering is exact. -/

/-- `CACHE_TTL` from cache.rs: `Duration::from_secs(300)`.  Time is modelled
in whole seconds. -/
def CACHE_TTL : Nat := 300

/-- `CacheEntry` from cache.rs; `created_at: Instant` becomes a `Nat`. -/
structure CacheEntry where
  response : CompletionResponse
  created_at : Nat
deriving DecidableEq

/-- The cache: capacity plus the MRU-first entry list. -/
structure CompletionCache where
  capacity : Nat
  items : List (Nat × CacheEntry)
deriving DecidableEq

namespace CompletionCache

/-- `CompletionCache::new`: the source builds
`LruCache::new(NonZeroUsize::new(capacity).unwrap_or(NonZeroUsize::new(100).unwrap()))`,
so a requested capacity of 0 silently becomes 100 and the constructor is
total (never panics). -/
def new (capacity : Nat) : CompletionCache :=
  ⟨if capacity = 0 then 100 else capacity, []⟩

/-- `CompletionCache::get`: on a present, unexpired key, clone the response
and promote the entry to most-recently-used; on a present but expired key,
pop the entry and miss; otherwise miss.  `entry.created_at.elapsed() <
CACHE_TTL` becomes `now - created_at < CACHE_TTL`. -/
def get (c : CompletionCache) (key now : Nat) :
    Option CompletionResponse × CompletionCache :=
  match c.items.find? (fun p => p.1 == key) with
  | none => (none, c)
  | some e =>
    if now - e.2.created_at < CACHE_TTL then
      (some e.2.response,
        ⟨c.capacity, (key, e.2) :: c.items.filter (fun p => p.1 != key)⟩)
    else
      (none, ⟨c.capacity, c.items.filter (fun p => p.1 != key)⟩)

/-- `CompletionCache::put`: insert or update at MRU position with
`created_at = now`, evicting the least-recently-used entry when the insert
overflows the capacity (the semantics of `LruCache::put`). -/
def put (c : CompletionCache) (key : Nat) (response : CompletionResponse)
    (now : Nat) : CompletionCache :=
  let pushed := (key, CacheEntry.mk response now) :: c.items.filter (fun p => p.1 != key)
  ⟨c.capacity, if c.capacity < pushed.length then pushed.dropLast else pushed⟩

/-- `CompletionCache::len`. -/
def len (c : CompletionCache) : Nat := c.items.length

end CompletionCache

/-- A cache operation, for stating invariants over arbitrary usage. -/
inductive CacheOp
  | opGet (key now : Nat)
  | opPut (key : Nat) (response : CompletionResponse) (now : Nat)

/-- Apply one operation, keeping only the state. -/
def applyCacheOp (c : CompletionCache) : CacheOp → CompletionCache
  | .opGet k now => (c.get k now).2
  | .opPut k r now => c.put k r now

/-- Run a sequence of cache operations. -/
def runCacheOps (c : CompletionCache) (ops : List CacheOp) : CompletionCache :=
  ops.foldl applyCacheOp c

/-! Helper lemmas for the cache claims. -/

theorem length_filter_lt_of_find?_eq_some {l : List (Nat × CacheEntry)} {k : Nat}
    {e : Nat × CacheEntry} (h : l.find? (fun p => p.1 == k) = some e) :
    (l.filter (fun p => p.1 != k)).length < l.length := by
  induction l with
  | nil => simp [List.find?] at h
  | cons a l ih =>
    by_cases ha : a.1 == k
    · have : (a.1 != k) = false := by simp [bne]; simpa using ha
      simp only [List.filter, this]
      exact Nat.lt_succ_of_le (List.length_filter_le _ l)
    · have hfind : l.find? (fun p => p.1 == k) = some e := by
        rw [List.find?] at h
        simp only [ha] at h
        exact h
      have : (a.1 != k) = true := by simp [bne, ha]
      simp only [List.filter, this]
      simpa using Nat.succ_lt_succ (ih hfind)

theorem CompletionCache.put_length_le (c : CompletionCache) (k : Nat)
    (r : CompletionResponse) (t : Nat) (h : c.items.length ≤ c.capacity) :
    (c.put k r t).items.length ≤ c.capacity := by
  have hfle : (c.items.filter (fun p => p.1 != k)).length ≤ c.items.length :=
    List.length_filter_le _ _
  unfold CompletionCache.put
  set pushed := (k, CacheEntry.mk r t) :: c.items.filter (fun p => p.1 != k) with hp
  have hplen : pushed.length = (c.items.filter (fun p => p.1 != k)).length + 1 := by
    simp [hp]
  by_cases hlt : c.capacity < pushed.length
  · simp only [hlt, if_true, List.length_dropLast]
    omega
  · simp only [hlt, if_false]
    omega

/-- With a positive capacity, `put` always yields the fresh entry at the MRU
position, followed by a tail drawn from the old entries with key `k`
removed. -/
theorem CompletionCache.put_items_cons (c : CompletionCache) (k : Nat)
    (v : CompletionResponse) (t : Nat) (hcap : 1 ≤ c.capacity) :
    ∃ tail, (c.put k v t).items = (k, CacheEntry.mk v t) :: tail
      ∧ ∀ p ∈ tail, p ∈ c.items.filter (fun p => p.1 != k) := by
  unfold CompletionCache.put
  set rest := c.items.filter (fun p => p.1 != k) with hrest
  by_cases hlt : c.capacity < ((k, CacheEntry.mk v t) :: rest).length
  · have hrestlen : 1 ≤ rest.length := by
      simp only [List.length_cons] at hlt
      omega
    obtain ⟨b, rest', hbr⟩ : ∃ b rest', rest = b :: rest' := by
      cases hr : rest with
      | nil => rw [hr] at hrestlen; simp at hrestlen
      | cons b rest' => exact ⟨b, rest', rfl⟩
    rw [hbr]
    rw [hbr] at hlt
    refine ⟨(b :: rest').dropLast, ?_, ?_⟩
    · show (if c.capacity < ((k, CacheEntry.mk v t) :: b :: rest').length
            then ((k, CacheEntry.mk v t) :: b :: rest').dropLast
            else (k, CacheEntry.mk v t) :: b :: rest')
          = (k, CacheEntry.mk v t) :: (b :: rest').dropLast
      rw [if_pos hlt, List.dropLast_cons₂]
    · intro p hp
      exact List.dropLast_subset _ hp
  · refine ⟨rest, ?_, fun p hp => hp⟩
    show (if c.capacity < ((k, CacheEntry.mk v t) :: rest).length
          then ((k, CacheEntry.mk v t) :: rest).dropLast
          else (k, CacheEntry.mk v t) :: rest)
        = (k, CacheEntry.mk v t) :: rest
    rw [if_neg hlt]

theorem CompletionCache.get_length_le (c : CompletionCache) (k now : Nat) :
    (c.get k now).2.items.length ≤ c.items.length := by
  unfold CompletionCache.get
  cases hfind : c.items.find? (fun p => p.1 == k) with
  | none => simp
  | some e =>
    have hlt := length_filter_lt_of_find?_eq_some hfind
    by_cases hts : now - e.2.created_at < CACHE_TTL
    · simp only [hts, if_true]
      simpa using hlt
    · simp only [hts, if_false]
      exact Nat.le_of_lt hlt

theorem CompletionCache.get_capacity (c : CompletionCache) (k now : Nat) :
    (c.get k now).2.capacity = c.capacity := by
  unfold CompletionCache.get
  cases hfind : c.items.find? (fun p => p.1 == k) with
  | none => simp
  | some e =>
    by_cases hts : now - e.2.created_at < CACHE_TTL
    · simp [hts]
    · simp [hts]

theorem runCacheOps_invariant (c : CompletionCache) (ops : List CacheOp)
    (h : c.items.length ≤ c.capacity) :
    (runCacheOps c ops).items.length ≤ (runCacheOps c ops).capacity
      ∧ (runCacheOps c ops).capacity = c.capacity := by
  induction ops generalizing c with
  | nil => exact ⟨h, rfl⟩
  | cons op ops ih =>
    have step : (applyCacheOp c op).items.length ≤ (applyCacheOp c op).capacity
        ∧ (applyCacheOp c op).capacity = c.capacity := by
      cases op with
      | opGet k now =>
        simp only [applyCacheOp]
        refine ⟨?_, CompletionCache.get_capacity c k now⟩
        rw [CompletionCache.get_capacity c k now]
        exact Nat.le_trans (CompletionCache.get_length_le c k now) h
      | opPut k r now =>
        simp only [applyCacheOp]
        have hput_cap : (c.put k r now).capacity = c.capacity := rfl
        rw [hput_cap]
        exact ⟨CompletionCache.put_length_le c k r now h, rfl⟩
    have := ih (applyCacheOp c op) step.1
    exact ⟨this.1, this.2.trans step.2⟩

/-- Filtering away key `k` leaves nothing that `find?` for `k` can hit. -/
theorem find?_filter_ne_none (l : List (Nat × CacheEntry)) (k : Nat) :
    (l.filter (fun p => p.1 != k)).find? (fun p => p.1 == k) = none := by
  rw [List.find?_eq_none]
  intro x hx
  have := List.of_mem_filter hx
  simpa [bne] using this

theorem CompletionCache.get_put_fresh (c : CompletionCache) (k : Nat)
    (v : CompletionResponse) (t t' : Nat) (hcap : 1 ≤ c.capacity)
    (hfresh : t' - t < CACHE_TTL) :
    ((c.put k v t).get k t').1 = some v := by
  obtain ⟨tail, hcons, _⟩ := CompletionCache.put_items_cons c k v t hcap
  unfold CompletionCache.get
  rw [hcons]
  simp [List.find?, hfresh]

theorem CompletionCache.get_put_expired (c : CompletionCache) (k : Nat)
    (v : CompletionResponse) (t t' : Nat) (hcap : 1 ≤ c.capacity)
    (hexp : CACHE_TTL ≤ t' - t) :
    ((c.put k v t).get k t').1 = none
      ∧ (((c.put k v t).get k t').2.items.find? (fun p => p.1 == k)) = none := by
  have hnot : ¬ t' - t < CACHE_TTL := by omega
  obtain ⟨tail, hcons, _⟩ := CompletionCache.put_items_cons c k v t hcap
  unfold CompletionCache.get
  rw [hcons]
  simp only [List.find?, beq_self_eq_true]
  refine ⟨by simp [hnot], ?_⟩
  simp only [hnot, if_false]
  exact find?_filter_ne_none _ k

theorem CompletionCache.put_evicts_lru (c : CompletionCache) (k : Nat)
    (v : CompletionResponse) (t : Nat) (hcap : 1 ≤ c.capacity)
    (hfull : c.items.length = c.capacity) (habsent : ∀ p ∈ c.items, p.1 ≠ k) :
    (c.put k v t).items = (k, CacheEntry.mk v t) :: c.items.dropLast
      ∧ (c.put k v t).items.length = c.capacity := by
  have hfilter : c.items.filter (fun p => p.1 != k) = c.items := by
    apply List.filter_eq_self.mpr
    intro p hp
    simpa [bne] using habsent p hp
  unfold CompletionCache.put
  simp only [hfilter]
  have hlen : ((k, CacheEntry.mk v t) :: c.items).length = c.capacity + 1 := by
    simp [hfull]
  have hlt : c.capacity < ((k, CacheEntry.mk v t) :: c.items).length := by omega
  simp only [hlt, if_true]
  have hne : c.items ≠ [] := by
    intro hnil
    rw [hnil] at hfull
    simp at hfull
    omega
  obtain ⟨b, rest', hbr⟩ : ∃ b rest', c.items = b :: rest' := by
    cases hr : c.items with
    | nil => exact absurd hr hne
    | cons b rest' => exact ⟨b, rest', rfl⟩
  constructor
  · rw [hbr, List.dropLast_cons₂]
  · rw [hbr]
    simp only [List.dropLast_cons₂, List.length_cons, List.length_dropLast]
    rw [hbr] at hfull
    simp at hfull
    omega

/-- A sample response value used by concrete witnesses. -/
def sampleResponse : CompletionResponse := ⟨[], "test", 0, false⟩

/-- A concrete full cache used by the C1 witness: capacity 2, keys 1 and 2. -/
def fullCache : CompletionCache :=
  ((CompletionCache.new 2).put 1 sampleResponse 0).put 2 sampleResponse 0

/-- C1: cache contract.  After `put k v` at time `t`, a `get k` strictly
before the 300-second TTL elapses returns `some v` (a clone of the stored
response); once the TTL has elapsed, `get k` returns `none` and removes the
entry, which is never returned.  Inserting a fresh key into a full cache
evicts exactly the least-recently-used (last) entry, and over any sequence
of operations from `new` the length never exceeds the capacity. -/
theorem C1_cache_contract :
    (∀ (c : CompletionCache) (k : Nat) (v : CompletionResponse) (t t' : Nat),
        1 ≤ c.capacity → t' - t < CACHE_TTL → ((c.put k v t).get k t').1 = some v)
    ∧ (∀ (c : CompletionCache) (k : Nat) (v : CompletionResponse) (t t' : Nat),
        1 ≤ c.capacity → CACHE_TTL ≤ t' - t →
        ((c.put k v t).get k t').1 = none
          ∧ ((c.put k v t).get k t').2.items.find? (fun p => p.1 == k) = none)
    ∧ (∀ (c : CompletionCache) (k : Nat) (v : CompletionResponse) (t : Nat),
        1 ≤ c.capacity → c.items.length = c.capacity → (∀ p ∈ c.items, p.1 ≠ k) →
        (c.put k v t).items = (k, CacheEntry.mk v t) :: c.items.dropLast
          ∧ (c.put k v t).items.length = c.capacity)
    ∧ (∀ (cap : Nat) (ops : List CacheOp),
        (runCacheOps (CompletionCache.new cap) ops).items.length
          ≤ (runCacheOps (CompletionCache.new cap) ops).capacity) := by
  refine ⟨?_, ?_, ?_, ?_⟩
  · exact fun c k v t t' hcap hfresh => CompletionCache.get_put_fresh c k v t t' hcap hfresh
  · exact fun c k v t t' hcap hexp => CompletionCache.get_put_expired c k v t t' hcap hexp
  · exact fun c k v t hcap hfull habsent =>
      CompletionCache.put_evicts_lru c k v t hcap hfull habsent
  · intro cap ops
    exact (runCacheOps_invariant (CompletionCache.new cap) ops (by simp [CompletionCache.new])).1

/-- Witness for C1 at concrete inputs: a fresh hit at time 10, an expired
miss at time 400, and LRU eviction on a full capacity-2 cache. -/
theorem C1_cache_contract_witness :
    ((((CompletionCache.new 2).put 7 sampleResponse 0).get 7 10).1 = some sampleResponse)
    ∧ (((((CompletionCache.new 2).put 7 sampleResponse 0).get 7 400).1 = none)
        ∧ (((CompletionCache.new 2).put 7 sampleResponse 0).get 7 400).2.items.find?
            (fun p => p.1 == 7) = none)
    ∧ ((fullCache.put 3 sampleResponse 5).items
          = (3, CacheEntry.mk sampleResponse 5) :: fullCache.items.dropLast
        ∧ (fullCache.put 3 sampleResponse 5).items.length = fullCache.capacity) := by
  refine ⟨?_, ?_, ?_⟩
  · exact C1_cache_contract.1 (CompletionCache.new 2) 7 sampleResponse 0 10
      (by decide) (by decide)
  · exact C1_cache_contract.2.1 (CompletionCache.new 2) 7 sampleResponse 0 400
      (by decide) (by decide)
  · exact C1_cache_contract.2.2.1 fullCache 3 sampleResponse 5
      (by decide) (by decide) (by decide)

set_option maxRecDepth 100000 in
/-- C10: `CompletionCache::new` is total for every capacity argument (the
`unwrap_or` eliminates the `NonZeroUsize::new` failure, so it never panics);
a requested capacity of 0 silently becomes 100, and such a cache really
holds up to 100 entries, so the `len ≤ capacity` bound holds only for the
effective (non-zero) capacity. -/
theorem C10_cache_new_total :
    (∀ cap : Nat, (CompletionCache.new cap).capacity = if cap = 0 then 100 else cap)
    ∧ (∀ cap : Nat, 1 ≤ (CompletionCache.new cap).capacity)
    ∧ (CompletionCache.new 0).capacity = 100
    ∧ ((List.range 100).foldl (fun c k => c.put k sampleResponse 0)
        (CompletionCache.new 0)).items.length = 100 := by
  refine ⟨fun cap => rfl, ?_, rfl, by decide⟩
  intro cap
  unfold CompletionCache.new
  by_cases h : cap = 0
  · simp [h]
  · simp only [h, if_false]
    omega

/-! ## Cross-tool history store (murmur-daemon/src/history.rs) -/

/-- `HistoryEntry` from murmur-protocol context.rs. -/
structure HistoryEntry where
  command : String
  cwd : String
  source : String
  exit_code : Int
  timestamp : Nat
deriving DecidableEq

/-- `CommandHistory`: a `VecDeque<HistoryEntry>` with newest entries at the
front, bounded by `max_entries`. -/
structure CommandHistory where
  max_entries : Nat
  entries : List HistoryEntry
deriving DecidableEq

namespace CommandHistory

/-- `CommandHistory::new`. -/
def new (max_entries : Nat) : CommandHistory := ⟨max_entries, []⟩

/-- `CommandHistory::record`: prepend the new entry, then pop from the back
while the length exceeds `max_entries` (equivalently, keep the first
`max_entries` entries).  The `SystemTime::now()` timestamp is passed in as an
explicit argument. -/
def record (h : CommandHistory) (command cwd source : String) (exit_code : Int)
    (timestamp : Nat) : CommandHistory :=
  ⟨h.max_entries,
    ((⟨command, cwd, source, exit_code, timestamp⟩ : HistoryEntry) :: h.entries).take
      h.max_entries⟩

/-- `CommandHistory::list`: iterate front-to-back, filter on `cwd` when one
is given, and take the first `limit` entries. -/
def list (h : CommandHistory) (cwd : Option String) (limit : Nat) :
    List HistoryEntry :=
  (h.entries.filter (fun e =>
      match cwd with
      | some dir => e.cwd == dir
      | none => true)).take limit

/-- `CommandHistory::len`. -/
def len (h : CommandHistory) : Nat := h.entries.length

end CommandHistory

/-- The arguments of one `record` call (with the oracle timestamp). -/
structure RecordArgs where
  command : String
  cwd : String
  source : String
  exit_code : Int
  timestamp : Nat

/-- The entry a `record` call constructs. -/
def toEntry (a : RecordArgs) : HistoryEntry :=
  ⟨a.command, a.cwd, a.source, a.exit_code, a.timestamp⟩

/-- Run a sequence of `record` calls. -/
def runRecords (h : CommandHistory) (ops : List RecordArgs) : CommandHistory :=
  ops.foldl
    (fun h a => h.record a.command a.cwd a.source a.exit_code a.timestamp) h

theorem take_append_take {α : Type} (n : Nat) (X Y : List α) :
    (X ++ Y.take n).take n = (X ++ Y).take n := by
  rw [List.take_append_eq_append_take, List.take_append_eq_append_take,
    List.take_take]
  have : min (n - X.length) n = n - X.length :=
    Nat.min_eq_left (Nat.sub_le n X.length)
  rw [this]

theorem runRecords_entries (ops : List RecordArgs) (h : CommandHistory)
    (hlen : h.entries.length ≤ h.max_entries) :
    (runRecords h ops).entries
        = ((ops.map toEntry).reverse ++ h.entries).take h.max_entries
      ∧ (runRecords h ops).max_entries = h.max_entries := by
  induction ops generalizing h with
  | nil =>
    refine ⟨?_, rfl⟩
    simp only [runRecords, List.foldl_nil, List.map_nil, List.reverse_nil,
      List.nil_append]
    exact (List.take_of_length_le hlen).symm
  | cons a ops ih =>
    have hstep : runRecords h (a :: ops)
        = runRecords (h.record a.command a.cwd a.source a.exit_code a.timestamp)
            ops := rfl
    set h' := h.record a.command a.cwd a.source a.exit_code a.timestamp with hh'
    have hlen' : h'.entries.length ≤ h'.max_entries := by
      rw [hh']
      unfold CommandHistory.record
      exact List.length_take_le _ _
    have hmax' : h'.max_entries = h.max_entries := rfl
    have hent' : h'.entries = (toEntry a :: h.entries).take h.max_entries := rfl
    obtain ⟨hent, hmax⟩ := ih h' hlen'
    rw [hstep]
    refine ⟨?_, by rw [hmax, hmax']⟩
    rw [hent, hmax', hent', take_append_take]
    have : ((a :: ops).map toEntry).reverse ++ h.entries
        = (ops.map toEntry).reverse ++ (toEntry a :: h.entries) := by
      simp [List.append_assoc]
    rw [this]

/-- C7: history store invariant.  After any sequence of `record` operations
from an empty history, `list none limit` returns the recorded entries in
reverse insertion order (newest first, trimmed to `max_entries`), the stored
length is at most `max_entries` after every `record`, and `list (some d)
limit` returns exactly the newest-first entries (up to `limit`) whose `cwd`
equals `d`. -/
theorem C7_history_invariant (max limit : Nat) (ops : List RecordArgs)
    (d : String) :
    ((runRecords (CommandHistory.new max) ops).list none limit
        = ((ops.map toEntry).reverse.take max).take limit)
    ∧ (runRecords (CommandHistory.new max) ops).entries.length ≤ max
    ∧ ((runRecords (CommandHistory.new max) ops).list (some d) limit
        = (((ops.map toEntry).reverse.take max).filter
            (fun e => e.cwd == d)).take limit) := by
  obtain ⟨hent, hmax⟩ :=
    runRecords_entries ops (CommandHistory.new max) (by simp [CommandHistory.new])
  have hent' : (runRecords (CommandHistory.new max) ops).entries
      = (ops.map toEntry).reverse.take max := by
    rw [hent]
    simp [CommandHistory.new]
  refine ⟨?_, ?_, ?_⟩
  · unfold CommandHistory.list
    rw [hent']
    have htrue : (fun (e : HistoryEntry) =>
        match (none : Option String) with
        | some dir => e.cwd == dir
        | none => true) = (fun _ => true) := rfl
    rw [htrue, List.filter_true]
  · rw [hent']
    exact List.length_take_le _ _
  · unfold CommandHistory.list
    rw [hent']

/-! ## Strings as byte sequences

Rust `&str` values are UTF-8 byte sequences; `str::len` counts bytes and
`str::starts_with` compares byte prefixes.  We encode Lean strings to byte
lists with a standard UTF-8 encoder. -/

/-- UTF-8 encoding of one scalar value. -/
def utf8EncodeChar (c : Char) : List Nat :=
  let n := c.toNat
  if n < 0x80 then [n]
  else if n < 0x800 then
    [0xC0 ||| (n >>> 6), 0x80 ||| (n &&& 0x3F)]
  else if n < 0x10000 then
    [0xE0 ||| (n >>> 12), 0x80 ||| ((n >>> 6) &&& 0x3F), 0x80 ||| (n &&& 0x3F)]
  else
    [0xF0 ||| (n >>> 18), 0x80 ||| ((n >>> 12) &&& 0x3F),
      0x80 ||| ((n >>> 6) &&& 0x3F), 0x80 ||| (n &&& 0x3F)]

/-- The UTF-8 bytes of a string. -/
def strBytes (s : String) : List Nat := (s.data.map utf8EncodeChar).flatten

/-- `str::len`: the UTF-8 byte length. -/
def byteLen (s : String) : Nat := (strBytes s).length

/-- `str::starts_with`: for valid UTF-8, byte-prefix equals character-prefix
(UTF-8 is a prefix-synchronizing code). -/
def startsWithB (s pat : String) : Bool := pat.data.isPrefixOf s.data

/-- `char::is_whitespace` restricted to the ASCII whitespace the repository's
inputs use (the full Unicode `White_Space` class only differs on exotic
code points). -/
def isWsp (c : Char) : Bool := c == ' ' || c == '\t' || c == '\n' || c == '\r'

/-- `str::trim`: remove leading and trailing whitespace. -/
def rustTrim (s : String) : String :=
  ⟨((s.data.dropWhile isWsp).reverse.dropWhile isWsp).reverse⟩

/-! ## Prefetch rules and predictor (murmur-daemon/src/prefetch.rs)

`PrefetchRules::new` inserts the rules below into a `HashMap`.  The Rust
iteration order over the map is unspecified, but among the keys that can
match a given input the longest one is unique (two prefixes of the same
string with equal length are equal), and the loop only replaces the current
best on a strictly longer key, so the chosen rule does not depend on the
iteration order; we fix insertion order. -/

def prefetchRules : List (String × List String) :=
  [("git", ["git commit", "git checkout", "git push", "git pull", "git status",
      "git diff", "git log", "git branch", "git stash", "git merge",
      "git rebase", "git add", "git reset"]),
   ("git c", ["git commit", "git checkout", "git cherry-pick", "git clone"]),
   ("git s", ["git status", "git stash", "git show"]),
   ("git p", ["git push", "git pull"]),
   ("git b", ["git branch", "git bisect"]),
   ("cargo", ["cargo build", "cargo test", "cargo run", "cargo clippy",
      "cargo fmt", "cargo check", "cargo bench"]),
   ("cargo t", ["cargo test", "cargo tree"]),
   ("cargo b", ["cargo build", "cargo bench"]),
   ("npm", ["npm install", "npm run", "npm test", "npm start",
      "npm build", "npm publish"]),
   ("npm r", ["npm run", "npm run dev", "npm run build", "npm run test"]),
   ("docker", ["docker ps", "docker compose", "docker build", "docker run",
      "docker images", "docker logs"]),
   ("docker c", ["docker compose up", "docker compose down",
      "docker compose logs"]),
   ("kubectl", ["kubectl get", "kubectl describe", "kubectl apply",
      "kubectl logs", "kubectl delete", "kubectl exec"])]

/-- One step of the best-match loop in `predict_next_inputs`: a rule whose
key is a prefix of (or equal to) the trimmed input replaces the current best
only when its key is strictly longer. -/
def updateBest (t : String) (best : Option (String × List String))
    (rule : String × List String) : Option (String × List String) :=
  if startsWithB t rule.1 || rule.1 == t then
    match best with
    | none => some rule
    | some cur => if byteLen cur.1 < byteLen rule.1 then some rule else best
  else best

/-- The longest matching rule for a trimmed input. -/
def bestRule (t : String) : Option (String × List String) :=
  prefetchRules.foldl (updateBest t) none

/-- `predict_next_inputs`: trim the input, find the longest matching rule,
and keep the continuations that start with the trimmed input and are
strictly longer than it. -/
def predict_next_inputs (input : String) : List String :=
  match bestRule (rustTrim input) with
  | some rule =>
    rule.2.filter (fun c => byteLen (rustTrim input) < byteLen c
      && startsWithB c (rustTrim input))
  | none => []

/-- C6 counterexample: for the input `"git c "` (trailing space), the
prediction `"git commit"` is produced but does not start with the raw input,
so the claimed postcondition `p.startswith(i)` fails on untrimmed inputs. -/
theorem C6_counterexample :
    "git commit" ∈ predict_next_inputs "git c "
      ∧ startsWithB "git commit" "git c " = false := by decide

/-- C6 (amended): every prediction starts with the *trimmed* input and is
strictly longer than the *trimmed* input (byte lengths); `predict "git c"`
contains both `"git commit"` and `"git checkout"`; `predict "git commit"`
does not contain `"git commit"`; and `predict "zzz"` is empty. -/
theorem C6_prefetch_amended :
    (∀ (i p : String), p ∈ predict_next_inputs i →
        startsWithB p (rustTrim i) = true ∧ byteLen (rustTrim i) < byteLen p)
    ∧ "git commit" ∈ predict_next_inputs "git c"
    ∧ "git checkout" ∈ predict_next_inputs "git c"
    ∧ "git commit" ∉ predict_next_inputs "git commit"
    ∧ predict_next_inputs "zzz" = [] := by
  refine ⟨?_, by decide, by decide, by decide, by decide⟩
  intro i p hp
  unfold predict_next_inputs at hp
  cases hbest : bestRule (rustTrim i) with
  | none => rw [hbest] at hp; simp at hp
  | some rule =>
    rw [hbest] at hp
    have hmem := List.of_mem_filter hp
    have hand := (Bool.and_eq_true _ _).mp hmem
    exact ⟨hand.2, of_decide_eq_true hand.1⟩

/-- Witness for C6 at a concrete input: the universally quantified part
applied to `"git c"` and its prediction `"git commit"`. -/
theorem C6_prefetch_witness :
    startsWithB "git commit" (rustTrim "git c") = true
      ∧ byteLen (rustTrim "git c") < byteLen "git commit" :=
  C6_prefetch_amended.1 "git c" "git commit" (by decide)

/-! ## Provider layer (murmur-daemon/src/handler.rs, murmur-providers)

A configured provider is modelled by the outcome of its `complete` call for
the one request under consideration (`Ok` with items, or `Err`); an
unconfigured or failed-to-initialize provider is `none`.  Provider names are
the fixed strings returned by each `Provider::name` implementation. -/

/-- The outcome of `Provider::complete` for one request. -/
abbrev ProviderOutcome := Except String (List CompletionItem)

/-- The `Providers` struct of handler.rs. -/
structure Providers where
  anthropic : Option ProviderOutcome
  codestral : Option ProviderOutcome
  ollama : Option ProviderOutcome

/-- `RouteDecision` from murmur-providers router.rs. -/
inductive RouteDecision
  | Shell
  | Code
  | Local

/-- A configured provider contributes one named element to a chain. -/
def optProv (nm : String) : Option ProviderOutcome →
    List (String × ProviderOutcome)
  | some oc => [(nm, oc)]
  | none => []

/-- `Providers::get_chain`: the ordered failover chain per route class,
skipping unconfigured providers. -/
def Providers.get_chain (ps : Providers) : RouteDecision →
    List (String × ProviderOutcome)
  | .Shell => optProv "anthropic" ps.anthropic ++ optProv "ollama" ps.ollama
  | .Code => optProv "codestral" ps.codestral ++ optProv "anthropic" ps.anthropic
      ++ optProv "ollama" ps.ollama
  | .Local => optProv "ollama" ps.ollama ++ optProv "anthropic" ps.anthropic

/-- The provider loop of `handle_complete` (handler.rs lines 251-289):
starting from `result_items = []`, `result_provider = "none"`, try each
provider in order, breaking on the first `Ok`.  The second component
records, in order, the names of the providers whose `complete` was
called. -/
def tryChain : List (String × ProviderOutcome) →
    (List CompletionItem × String) × List String
  | [] => (([], "none"), [])
  | p :: rest =>
    match p.2 with
    | .ok items => ((items, p.1), [p.1])
    | .error _ =>
      let r := tryChain rest
      (r.1, p.1 :: r.2)

/-- The `(items, provider)` pair `handle_complete` builds into the response
on a cache miss (the `chain.is_empty()` branch and the loop produce the same
value through `tryChain`). -/
def completeMissResult (ps : Providers) (d : RouteDecision) :
    (List CompletionItem × String) × List String :=
  tryChain (ps.get_chain d)

/-- C2: provider failover.  In any chain, if every provider before `p` fails
and `p` returns `Ok items`, the result is `(items, p.name)` and exactly the
providers up to and including `p` are called — no later provider is called;
if every provider in the chain fails (or the chain is empty) the result is
`([], "none")`; and the chains per route class are exactly
shell → [anthropic, ollama], code → [codestral, anthropic, ollama],
local → [ollama, anthropic], with unconfigured providers skipped. -/
theorem C2_provider_failover :
    (∀ (pre : List (String × ProviderOutcome)) (nm : String)
        (items : List CompletionItem) (post : List (String × ProviderOutcome)),
        (∀ q ∈ pre, ∃ e, q.2 = Except.error e) →
        tryChain (pre ++ (nm, Except.ok items) :: post)
          = ((items, nm), pre.map Prod.fst ++ [nm]))
    ∧ (∀ chain : List (String × ProviderOutcome),
        (∀ q ∈ chain, ∃ e, q.2 = Except.error e) →
        tryChain chain = (([], "none"), chain.map Prod.fst))
    ∧ (∀ ps : Providers,
        completeMissResult ps .Shell
            = tryChain (optProv "anthropic" ps.anthropic ++ optProv "ollama" ps.ollama)
          ∧ completeMissResult ps .Code
            = tryChain (optProv "codestral" ps.codestral
                ++ optProv "anthropic" ps.anthropic ++ optProv "ollama" ps.ollama)
          ∧ completeMissResult ps .Local
            = tryChain (optProv "ollama" ps.ollama ++ optProv "anthropic" ps.anthropic)) := by
  refine ⟨?_, ?_, fun ps => ⟨rfl, rfl, rfl⟩⟩
  · intro pre nm items post hpre
    induction pre with
    | nil => simp [tryChain]
    | cons q pre ih =>
      obtain ⟨e, he⟩ := hpre q (List.mem_cons_self q pre)
      have hrest : ∀ r ∈ pre, ∃ e, r.2 = Except.error e :=
        fun r hr => hpre r (List.mem_cons_of_mem q hr)
      simp only [List.cons_append, tryChain, he, List.append_eq, ih hrest,
        List.map_cons]
  · intro chain hall
    induction chain with
    | nil => rfl
    | cons q chain ih =>
      obtain ⟨e, he⟩ := hall q (List.mem_cons_self q chain)
      have hrest : ∀ r ∈ chain, ∃ e, r.2 = Except.error e :=
        fun r hr => hall r (List.mem_cons_of_mem q hr)
      simp only [tryChain, he, ih hrest, List.map_cons]

/-- Witness for C2: the spec's failover scenario — a chain `[A, B, C]` where
A errors and B succeeds yields provider `"b"`, and C is never called (the
called list is `["a", "b"]`). -/
theorem C2_provider_failover_witness :
    tryChain [("a", Except.error "boom"), ("b", Except.ok []),
        ("c", Except.ok [])]
      = (([], "b"), ["a", "b"]) := by
  have h := C2_provider_failover.1 [("a", Except.error "boom")] "b" []
    [("c", Except.ok [])]
    (by
      intro q hq
      rw [List.mem_singleton] at hq
      subst hq
      exact ⟨"boom", rfl⟩)
  simpa using h

/-! ## Voice layer (murmur-voice)

The STT engines, the remote HTTP restructurer (restructure.rs) and the local
CLI restructurer (claude_cli.rs) perform external effects; each call's
environment is modelled by an outcome value with one constructor per failure
shape the source distinguishes.  The `cwd` and `shell` arguments only shape
prompt strings and are omitted.  `f64` confidences are rationals. -/

/-- `VoiceMode` from murmur-protocol voice.rs. -/
inductive VoiceMode
  | command
  | natural
deriving DecidableEq

/-- `VoiceError` from murmur-voice lib.rs. -/
inductive VoiceError
  | notAvailable (msg : String)
  | captureError (msg : String)
  | sttError (msg : String)
  | restructureError (msg : String)
  | timeout (ms : Nat)
  | lowConfidence (confidence threshold : ℚ)
deriving DecidableEq

/-- `SttResult` from murmur-voice lib.rs. -/
structure SttResult where
  transcript : String
  confidence : ℚ
deriving DecidableEq

/-- `VoiceResult` from murmur-protocol voice.rs. -/
structure VoiceResult where
  transcript : String
  output : String
  mode : VoiceMode
  confidence : ℚ
  engine : String
  latency_ms : Nat
deriving DecidableEq

/-- The environment of one `VoiceRestructurer::restructure` call
(restructure.rs): the HTTP request fails, the status is not a success, the
body fails to parse, or it succeeds with a list of content-block texts. -/
inductive ApiOutcome
  | reqErr (msg : String)
  | httpErr (status body : String)
  | parseErr (msg : String)
  | ok (blocks : List String)

/-- `VoiceRestructurer::restructure`: request/status/parse failures return
`Err(RestructureError ...)`; on success the first content block is trimmed,
and only an *empty* output falls back to the raw transcript. -/
def apiRestructure (o : ApiOutcome) (transcript : String) :
    Except VoiceError String :=
  match o with
  | .reqErr m => .error (.restructureError ("LLM request failed: " ++ m))
  | .httpErr status body =>
    .error (.restructureError ("LLM API error " ++ status ++ ": " ++ body))
  | .parseErr m =>
    .error (.restructureError ("Failed to parse LLM response: " ++ m))
  | .ok blocks =>
    let output := (blocks.head?.map rustTrim).getD ""
    if output = "" then .ok transcript else .ok output

/-- The environment of one `ClaudeCliRestructurer::run_claude` call
(claude_cli.rs): spawn, stdin-write or wait failure, non-zero exit, or
completion with the child's stdout. -/
inductive CliRunOutcome
  | spawnErr (msg : String)
  | stdinErr (msg : String)
  | waitErr (msg : String)
  | exitNonzero (status stderr : String)
  | completed (stdout : String)

/-- `ClaudeCliRestructurer::run_claude`. -/
def runClaude : CliRunOutcome → Except VoiceError String
  | .spawnErr m => .error (.restructureError ("Failed to spawn claude CLI: " ++ m))
  | .stdinErr m =>
    .error (.restructureError ("Failed to write to claude stdin: " ++ m))
  | .waitErr m => .error (.restructureError ("Failed to read claude output: " ++ m))
  | .exitNonzero status stderr =>
    .error (.restructureError
      ("claude CLI exited with " ++ status ++ ": " ++ rustTrim stderr))
  | .completed out => .ok (rustTrim out)

/-- The environment of one `ClaudeCliRestructurer::restructure` call: either
the `tokio::time::timeout` fires, or `run_claude` finishes with an
outcome. -/
inductive CliOutcome
  | timedOut
  | finished (r : CliRunOutcome)

/-- `ClaudeCliRestructurer::restructure`: every failure (timeout, spawn or
pipe failure, non-zero exit, empty output) falls back to the raw transcript;
only a non-empty output is returned as-is.  It never returns `Err`. -/
def cliRestructure (o : CliOutcome) (transcript : String) :
    Except VoiceError String :=
  match o with
  | .timedOut => .ok transcript
  | .finished r =>
    match runClaude r with
    | .ok out => if out ≠ "" then .ok out else .ok transcript
    | .error _ => .ok transcript

/-- The configured restructurer backend together with the environment of the
one call `process_audio` makes (the `Restructurer` enum of lib.rs). -/
inductive RestructurerCall
  | api (o : ApiOutcome)
  | claudeCli (o : CliOutcome)

/-- Dispatch of the `match &self.restructurer` in `process_audio`. -/
def restructureWith : RestructurerCall → String → Except VoiceError String
  | .api o, t => apiRestructure o t
  | .claudeCli o, t => cliRestructure o t

/-- The voice-relevant part of `VoiceConfig`. -/
structure VoiceConfig where
  enabled : Bool
  confidence_threshold : ℚ

/-- One STT engine with its availability and the outcome of `transcribe`
for the audio under consideration. -/
structure SttEngine where
  name : String
  available : Bool
  outcome : Except String SttResult

/-- The engine loop inside `VoiceEngine::run_stt`. -/
def runSttLoop : List SttEngine → Except VoiceError (SttResult × String)
  | [] => .error (.sttError "All STT engines failed")
  | e :: rest =>
    if e.available then
      match e.outcome with
      | .ok r => .ok (r, e.name)
      | .error _ => runSttLoop rest
    else runSttLoop rest

/-- `VoiceEngine::run_stt`: empty engine list is `NotAvailable`; otherwise
try engines in order, skipping unavailable ones, returning the first
success; all failures yield `SttError`. -/
def runStt (engines : List SttEngine) : Except VoiceError (SttResult × String) :=
  if engines.isEmpty then
    .error (.notAvailable
      "No STT engines configured. Set deepgram_api_key in [voice] config.")
  else runSttLoop engines

/-- `VoiceEngine::process_audio` (murmur-voice lib.rs lines 155-221):
disabled check, STT with failover, confidence threshold, then the
restructurer dispatch — whose result is propagated with `?`, including its
errors.  `elapsed` is the measured latency oracle. -/
def process_audio (cfg : VoiceConfig) (engines : List SttEngine)
    (restructurer : Option RestructurerCall) (mode : VoiceMode)
    (elapsed : Nat) : Except VoiceError VoiceResult :=
  if !cfg.enabled then
    .error (.notAvailable "Voice input is disabled in config")
  else
    match runStt engines with
    | .error e => .error e
    | .ok (stt, engineName) =>
      if stt.confidence < cfg.confidence_threshold then
        .error (.lowConfidence stt.confidence cfg.confidence_threshold)
      else
        match (match restructurer with
               | some r => restructureWith r stt.transcript
               | none => .ok stt.transcript) with
        | .error e => .error e
        | .ok output =>
          .ok ⟨stt.transcript, output, mode, stt.confidence, engineName, elapsed⟩

/-- A CLI-restructurer call that fails in one of the ways the claim lists
(spawn failure, pipe failure, non-zero exit, timeout, empty output). -/
def CliFails : CliOutcome → Prop
  | .timedOut => True
  | .finished (.completed s) => rustTrim s = ""
  | .finished _ => True

/-- An API-restructurer call that fails (request failure, non-success HTTP
status, or unparsable body). -/
def ApiFails : ApiOutcome → Prop
  | .ok _ => False
  | _ => True

theorem cliRestructure_of_fails (o : CliOutcome) (t : String)
    (h : CliFails o) : cliRestructure o t = .ok t := by
  cases o with
  | timedOut => rfl
  | finished r =>
    cases r with
    | spawnErr m => rfl
    | stdinErr m => rfl
    | waitErr m => rfl
    | exitNonzero status stderr => rfl
    | completed s =>
      have hs : rustTrim s = "" := h
      simp [cliRestructure, runClaude, hs]

/-- C4 counterexample: with the API restructurer configured, voice enabled,
a successful confident transcription, and a failing restructurer HTTP
request, `process_audio` does *not* succeed with the raw transcript — it
surfaces the restructurer error. -/
theorem C4_counterexample :
    process_audio ⟨true, 1/2⟩
        [⟨"deepgram", true, Except.ok ⟨"list files", 9/10⟩⟩]
        (some (.api (.reqErr "connection refused"))) .command 5
      = Except.error (.restructureError "LLM request failed: connection refused") := by
  norm_num [process_audio, runStt, runSttLoop, restructureWith, apiRestructure,
    List.isEmpty]
  rfl

/-- C4 (amended): failures of the *CLI* restructurer are always swallowed —
`process_audio` still succeeds and returns the raw transcript as `output`
(indeed the CLI restructurer never returns an error at all); for the *API*
restructurer, only empty LLM output falls back to the raw transcript, while
request, HTTP-status and parse failures are surfaced by `process_audio` as
`RestructureError`s. -/
theorem C4_restructurer_amended :
    (∀ (cfg : VoiceConfig) (engines : List SttEngine) (o : CliOutcome)
        (mode : VoiceMode) (elapsed : Nat) (stt : SttResult) (en : String),
        cfg.enabled = true →
        runStt engines = .ok (stt, en) →
        ¬ stt.confidence < cfg.confidence_threshold →
        CliFails o →
        process_audio cfg engines (some (.claudeCli o)) mode elapsed
          = .ok ⟨stt.transcript, stt.transcript, mode, stt.confidence, en, elapsed⟩)
    ∧ (∀ (o : CliOutcome) (t : String), (cliRestructure o t).isOk = true)
    ∧ (∀ (cfg : VoiceConfig) (engines : List SttEngine) (blocks : List String)
        (mode : VoiceMode) (elapsed : Nat) (stt : SttResult) (en : String),
        cfg.enabled = true →
        runStt engines = .ok (stt, en) →
        ¬ stt.confidence < cfg.confidence_threshold →
        (blocks.head?.map rustTrim).getD "" = "" →
        process_audio cfg engines (some (.api (.ok blocks))) mode elapsed
          = .ok ⟨stt.transcript, stt.transcript, mode, stt.confidence, en, elapsed⟩)
    ∧ (∀ (cfg : VoiceConfig) (engines : List SttEngine) (o : ApiOutcome)
        (mode : VoiceMode) (elapsed : Nat) (stt : SttResult) (en : String),
        cfg.enabled = true →
        runStt engines = .ok (stt, en) →
        ¬ stt.confidence < cfg.confidence_threshold →
        ApiFails o →
        ∃ m, process_audio cfg engines (some (.api o)) mode elapsed
          = .error (.restructureError m)) := by
  refine ⟨?_, ?_, ?_, ?_⟩
  · intro cfg engines o mode elapsed stt en hen hstt hconf hfail
    unfold process_audio
    rw [hen, hstt]
    simp only [Bool.not_true, Bool.false_eq_true, if_false, hconf]
    simp only [restructureWith, cliRestructure_of_fails o stt.transcript hfail,
      if_false]
  · intro o t
    cases o with
    | timedOut => rfl
    | finished r =>
      cases r with
      | spawnErr m => rfl
      | stdinErr m => rfl
      | waitErr m => rfl
      | exitNonzero status stderr => rfl
      | completed s =>
        by_cases hs : rustTrim s = ""
        · simp [cliRestructure, runClaude, hs, Except.isOk, Except.toBool]
        · simp [cliRestructure, runClaude, hs, Except.isOk, Except.toBool]
  · intro cfg engines blocks mode elapsed stt en hen hstt hconf hempty
    unfold process_audio
    rw [hen, hstt]
    simp only [Bool.not_true, Bool.false_eq_true, if_false, hconf]
    simp only [restructureWith, apiRestructure, hempty]
    simp
  · intro cfg engines o mode elapsed stt en hen hstt hconf hfail
    unfold process_audio
    rw [hen, hstt]
    simp only [Bool.not_true, Bool.false_eq_true, if_false, hconf]
    cases o with
    | reqErr m => exact ⟨"LLM request failed: " ++ m, rfl⟩
    | httpErr status body => exact ⟨"LLM API error " ++ status ++ ": " ++ body, rfl⟩
    | parseErr m => exact ⟨"Failed to parse LLM response: " ++ m, rfl⟩
    | ok blocks => exact absurd hfail (by simp [ApiFails])

/-- Witness for C4 at a concrete input: a CLI restructurer timeout is
swallowed and the raw transcript is returned. -/
theorem C4_restructurer_witness :
    process_audio ⟨true, 1/2⟩
        [⟨"deepgram", true, Except.ok ⟨"list files", 9/10⟩⟩]
        (some (.claudeCli .timedOut)) .command 5
      = .ok ⟨"list files", "list files", .command, 9/10, "deepgram", 5⟩ :=
  C4_restructurer_amended.1 ⟨true, 1/2⟩
    [⟨"deepgram", true, Except.ok ⟨"list files", 9/10⟩⟩] .timedOut .command 5
    ⟨"list files", 9/10⟩ "deepgram" rfl rfl (by norm_num) trivial

/-! ## Handler parameter decoding (murmur-daemon/src/handler.rs)

Each handler first inspects `request.params`: either the field is absent
(`None`), or `serde_json::from_value` fails with a message, or it decodes.
The result of this phase is either an early error response `(code, message)`
or the decoded parameters. -/

/-- JSON-RPC error codes from murmur-protocol jsonrpc.rs. -/
def PARSE_ERROR : Int := -32700
def INVALID_REQUEST : Int := -32600
def METHOD_NOT_FOUND : Int := -32601
def INVALID_PARAMS : Int := -32602
def INTERNAL_ERROR : Int := -32603

/-- The serde outcome for a handler's params field. -/
inductive DecodeOutcome (α : Type)
  | missing
  | badDecode (msg : String)
  | ok (val : α)

/-- `HistoryListRequest` from murmur-protocol context.rs. -/
structure HistoryListRequest where
  cwd : Option String
  limit : Nat
deriving DecidableEq

/-- `VoiceStartRequest` from murmur-protocol voice.rs. -/
structure VoiceStartRequest where
  mode : VoiceMode
  cwd : String
  shell : Option String
deriving DecidableEq

/-- `VoiceProcessRequest` from murmur-protocol voice.rs. -/
structure VoiceProcessRequest where
  audio_data : String
  mode : VoiceMode
  cwd : String
  shell : Option String
deriving DecidableEq

/-- `ContextUpdateRequest` from murmur-protocol context.rs. -/
structure ContextUpdateRequest where
  source : String
  command : String
  cwd : String
  exit_code : Int
  session_id : Option String
deriving DecidableEq

/-- Params phase of `handle_complete` (handler.rs lines 203-216). -/
def handleCompleteDecode :
    DecodeOutcome CompletionRequest → Except (Int × String) CompletionRequest
  | .missing => .error (INVALID_PARAMS, "Missing params")
  | .badDecode e => .error (INVALID_PARAMS, "Invalid params: " ++ e)
  | .ok p => .ok p

/-- Params phase of `handle_voice_start`. -/
def handleVoiceStartDecode :
    DecodeOutcome VoiceStartRequest → Except (Int × String) VoiceStartRequest
  | .missing => .error (INVALID_PARAMS, "Missing voice params")
  | .badDecode e => .error (INVALID_PARAMS, "Invalid voice params: " ++ e)
  | .ok p => .ok p

/-- Params phase of `handle_voice_process`. -/
def handleVoiceProcessDecode :
    DecodeOutcome VoiceProcessRequest → Except (Int × String) VoiceProcessRequest
  | .missing => .error (INVALID_PARAMS, "Missing voice/process params")
  | .badDecode e => .error (INVALID_PARAMS, "Invalid voice/process params: " ++ e)
  | .ok p => .ok p

/-- Params phase of `handle_context_update`. -/
def handleContextUpdateDecode :
    DecodeOutcome ContextUpdateRequest → Except (Int × String) ContextUpdateRequest
  | .missing => .error (INVALID_PARAMS, "Missing context/update params")
  | .badDecode e => .error (INVALID_PARAMS, "Invalid context/update params: " ++ e)
  | .ok p => .ok p

/-- Params phase of `handle_history_list` (handler.rs lines 482-498): a
params object that fails to decode errors with −32602, but a *missing*
params field silently defaults to `{ cwd: None, limit: 50 }` and the
handler proceeds to a success response. -/
def handleHistoryListDecode :
    DecodeOutcome HistoryListRequest → Except (Int × String) HistoryListRequest
  | .missing => .ok ⟨none, 50⟩
  | .badDecode e => .error (INVALID_PARAMS, "Invalid history/list params: " ++ e)
  | .ok p => .ok p

/-- `handle_status`, `handle_shutdown` and `handle_voice_status` never read
`request.params`, so any params outcome proceeds. -/
def handleStatusDecode : DecodeOutcome Unit → Except (Int × String) Unit :=
  fun _ => .ok ()

/-- C5 counterexample: `history/list` with a missing params field does not
yield a −32602 error — it decodes to the default `{cwd: none, limit: 50}`
and succeeds (and `status` with missing params succeeds as well). -/
theorem C5_counterexample :
    handleHistoryListDecode .missing
        = .ok (⟨none, 50⟩ : HistoryListRequest)
      ∧ handleStatusDecode .missing = .ok () :=
  ⟨rfl, rfl⟩

/-- C5 (amended): for `complete`, `voice/start`, `voice/process` and
`context/update`, a missing or undecodable params field yields −32602 with
a descriptive message; for `history/list`, an undecodable params object
yields −32602 but a missing one defaults to `{cwd: none, limit: 50}` and
succeeds; `status`, `shutdown` and `voice/status` ignore params. -/
theorem C5_invalid_params_amended :
    (∀ e, handleCompleteDecode (.badDecode e)
        = .error (INVALID_PARAMS, "Invalid params: " ++ e))
    ∧ handleCompleteDecode .missing = .error (INVALID_PARAMS, "Missing params")
    ∧ (∀ e, handleVoiceStartDecode (.badDecode e)
        = .error (INVALID_PARAMS, "Invalid voice params: " ++ e))
    ∧ handleVoiceStartDecode .missing
        = .error (INVALID_PARAMS, "Missing voice params")
    ∧ (∀ e, handleVoiceProcessDecode (.badDecode e)
        = .error (INVALID_PARAMS, "Invalid voice/process params: " ++ e))
    ∧ handleVoiceProcessDecode .missing
        = .error (INVALID_PARAMS, "Missing voice/process params")
    ∧ (∀ e, handleContextUpdateDecode (.badDecode e)
        = .error (INVALID_PARAMS, "Invalid context/update params: " ++ e))
    ∧ handleContextUpdateDecode .missing
        = .error (INVALID_PARAMS, "Missing context/update params")
    ∧ (∀ e, handleHistoryListDecode (.badDecode e)
        = .error (INVALID_PARAMS, "Invalid history/list params: " ++ e))
    ∧ handleHistoryListDecode .missing = .ok (⟨none, 50⟩ : HistoryListRequest)
    ∧ (∀ p, handleStatusDecode p = .ok ()) :=
  ⟨fun _ => rfl, rfl, fun _ => rfl, rfl, fun _ => rfl, rfl, fun _ => rfl, rfl,
    fun _ => rfl, rfl, fun _ => rfl⟩

/-! ## Chat-provider response parsing (murmur-providers/src/anthropic.rs) -/

/-- The `Suggestion` shape `parse_completions` deserializes. -/
structure Suggestion where
  text : String
  description : Option String
deriving DecidableEq

/-- `AnthropicProvider::parse_completions` after the serde step: `parsed` is
the result of `serde_json::from_str::<Vec<Suggestion>>` on the
markdown-stripped text (`none` models a parse failure, which yields an empty
list, not an error).  Each suggestion at 0-based index `i` becomes a
`FullCommand` item with score `1.0 - (i as f64 * 0.1)` — there is no
clamping in the source. -/
def parse_completions (parsed : Option (List Suggestion)) : List CompletionItem :=
  match parsed with
  | some suggestions =>
    suggestions.enum.map (fun is =>
      ⟨is.2.text, is.2.description, .fullCommand, 1 - (is.1 : ℚ) * (1 / 10)⟩)
  | none => []

theorem parse_completions_getElem? (l : List Suggestion) (i : Nat)
    (item : CompletionItem) (h : (parse_completions (some l))[i]? = some item) :
    item.score = 1 - (i : ℚ) * (1 / 10) := by
  unfold parse_completions at h
  rw [List.getElem?_map, List.getElem?_enum] at h
  cases hl : l[i]? with
  | none => rw [hl] at h; simp at h
  | some s =>
    rw [hl] at h
    simp only [Option.map_some'] at h
    have := Option.some.inj h
    rw [← this]

/-- C8 counterexample: a parsed response with 12 suggestions gives the item
at index 11 the score `1 − 1.1 = −0.1 < 0`; the source does not clamp, so
scores are not confined to `[0, 1]`. -/
theorem C8_counterexample :
    ((parse_completions (some (List.replicate 12 ⟨"x", none⟩)))[11]?).map
        CompletionItem.score = some (1 - (11 : ℚ) * (1 / 10))
      ∧ (1 - (11 : ℚ) * (1 / 10)) < 0 := by
  constructor
  · unfold parse_completions
    rw [List.getElem?_map, List.getElem?_enum,
      List.getElem?_replicate_of_lt (by norm_num)]
    simp
  · norm_num

/-- C8 (amended): the i-th parsed completion item (0-based) has score
`1.0 − 0.1·i` with *no* clamping; the score lies in `[0, 1]` only for
`i ≤ 10`, and from index 11 on it is negative. -/
theorem C8_anthropic_scores_amended :
    ∀ (parsed : Option (List Suggestion)) (i : Nat) (item : CompletionItem),
      (parse_completions parsed)[i]? = some item →
      item.score = 1 - (i : ℚ) * (1 / 10)
        ∧ (i ≤ 10 → 0 ≤ item.score ∧ item.score ≤ 1)
        ∧ (11 ≤ i → item.score < 0) := by
  intro parsed i item h
  cases parsed with
  | none => simp [parse_completions] at h
  | some l =>
    have hs := parse_completions_getElem? l i item h
    have h0 : (0 : ℚ) ≤ (i : ℚ) := Nat.cast_nonneg i
    refine ⟨hs, ?_, ?_⟩
    · intro hi
      have hc : (i : ℚ) ≤ 10 := by exact_mod_cast hi
      rw [hs]
      constructor
      · linarith
      · linarith
    · intro hi
      have hc : (11 : ℚ) ≤ (i : ℚ) := by exact_mod_cast hi
      rw [hs]
      linarith

/-- Witness for C8 at a concrete input: the 12-suggestion list's item at
index 11 has negative score, via the amended theorem. -/
theorem C8_anthropic_scores_witness :
    (⟨"x", none, .fullCommand, 1 - (11 : ℚ) * (1 / 10)⟩ : CompletionItem).score
      < 0 := by
  have h := C8_anthropic_scores_amended (some (List.replicate 12 ⟨"x", none⟩)) 11
    ⟨"x", none, .fullCommand, 1 - (11 : ℚ) * (1 / 10)⟩ (by
      unfold parse_completions
      rw [List.getElem?_map, List.getElem?_enum,
        List.getElem?_replicate_of_lt (by norm_num)]
      simp)
  exact h.2.2 (by norm_num)

/-! ## Cache fingerprint (murmur-daemon/src/cache.rs `cache_key`)

`cache_key` feeds `input`, `cwd` and `shell` through a
`std::collections::hash_map::DefaultHasher`, which is SipHash-1-3 with both
keys zero.  `Hash for str` writes the string's UTF-8 bytes *followed by a
0xff terminator byte*, so the hashed stream is not the plain concatenation
of the three byte sequences.  The standard library hasher buffers its input
into 8-byte blocks; a sequence of `write` calls is observably identical to
hashing the concatenation of all written bytes, so the hasher state is
modelled as the accumulated byte stream.  All `u64` arithmetic is explicit
`% 2 ^ 64`. -/

/-- `2 ^ 64`. -/
def U64 : Nat := 18446744073709551616

/-- Wrapping `u64` arithmetic. -/
def w64 (x : Nat) : Nat := x % U64

/-- `u64::rotate_left` (for `x < 2 ^ 64`, `r ≤ 63`). -/
def rotl64 (x r : Nat) : Nat := w64 (x <<< r) ||| (x >>> (64 - r))

/-- The four SipHash state words. -/
structure SipState where
  v0 : Nat
  v1 : Nat
  v2 : Nat
  v3 : Nat

/-- One SipRound, from the SipHash reference (as implemented by the Rust
standard library's `SipHasher13`). -/
def sipRound (s : SipState) : SipState :=
  let v0 := w64 (s.v0 + s.v1)
  let v1 := rotl64 s.v1 13
  let v1 := v1 ^^^ v0
  let v0 := rotl64 v0 32
  let v2 := w64 (s.v2 + s.v3)
  let v3 := rotl64 s.v3 16
  let v3 := v3 ^^^ v2
  let v0 := w64 (v0 + v3)
  let v3 := rotl64 v3 21
  let v3 := v3 ^^^ v0
  let v2 := w64 (v2 + v1)
  let v1 := rotl64 v1 17
  let v1 := v1 ^^^ v2
  let v2 := rotl64 v2 32
  ⟨v0, v1, v2, v3⟩

/-- Compress one 8-byte message word (SipHash-1-3: one round per word). -/
def sipCompress (s : SipState) (m : Nat) : SipState :=
  let s1 : SipState := ⟨s.v0, s.v1, s.v2, s.v3 ^^^ m⟩
  let s2 := sipRound s1
  ⟨s2.v0 ^^^ m, s2.v1, s2.v2, s2.v3⟩

/-- Little-endian value of a byte list. -/
def le64 (bs : List Nat) : Nat := bs.foldr (fun b acc => b + 256 * acc) 0

/-- Consume the full 8-byte blocks of the message, returning the remainder. -/
def sipBlocks (s : SipState) : List Nat → SipState × List Nat
  | b0 :: b1 :: b2 :: b3 :: b4 :: b5 :: b6 :: b7 :: rest =>
    sipBlocks (sipCompress s (le64 [b0, b1, b2, b3, b4, b5, b6, b7])) rest
  | rest => (s, rest)

/-- SipHash-1-3 of a byte stream, with keys `k0`, `k1`: reference
initialization constants, one compression round per 8-byte word, a final
word carrying `len % 256` in the top byte, and three finalization rounds. -/
def sipHash13 (k0 k1 : Nat) (data : List Nat) : Nat :=
  let s0 : SipState :=
    ⟨k0 ^^^ 0x736f6d6570736575, k1 ^^^ 0x646f72616e646f6d,
      k0 ^^^ 0x6c7967656e657261, k1 ^^^ 0x7465646279746573⟩
  let br := sipBlocks s0 data
  let b := ((data.length % 256) <<< 56) ||| le64 br.2
  let s2 := sipCompress br.1 b
  let s3 : SipState := ⟨s2.v0, s2.v1, s2.v2 ^^^ 0xff, s2.v3⟩
  let s4 := sipRound (sipRound (sipRound s3))
  w64 (s4.v0 ^^^ s4.v1 ^^^ s4.v2 ^^^ s4.v3)

/-- `DefaultHasher` state: the accumulated byte stream. -/
abbrev DefaultHasher := List Nat

/-- `DefaultHasher::new()` (SipHasher13 with zero keys). -/
def DefaultHasher.new : DefaultHasher := []

/-- `Hasher::write`. -/
def DefaultHasher.write (h : DefaultHasher) (bs : List Nat) : DefaultHasher :=
  h ++ bs

/-- `Hasher::finish`: SipHash-1-3 with zero keys over the stream. -/
def DefaultHasher.finish (h : DefaultHasher) : Nat := sipHash13 0 0 h

/-- `Hash for str`: write the UTF-8 bytes, then a 0xff terminator byte. -/
def DefaultHasher.hashStr (h : DefaultHasher) (s : String) : DefaultHasher :=
  h.write (strBytes s ++ [0xff])

/-- `CompletionCache::cache_key` (cache.rs lines 29-35): hash `input`,
`cwd`, `shell` in order through a fresh `DefaultHasher` and finish. -/
def CompletionCache.cache_key (input cwd shell : String) : Nat :=
  (((DefaultHasher.new.hashStr input).hashStr cwd).hashStr shell).finish

/-- The key `handle_complete` computes (handler.rs lines 218-225): the
request's shell defaults to the literal `"unknown"` when absent. -/
def handlerCacheKey (input cwd : String) (shell : Option String) : Nat :=
  CompletionCache.cache_key input cwd (shell.getD "unknown")

theorem w64_lt (x : Nat) : w64 x < U64 :=
  Nat.mod_lt x (by norm_num [U64])

theorem sipHash13_lt (k0 k1 : Nat) (data : List Nat) :
    sipHash13 k0 k1 data < U64 :=
  w64_lt _

theorem cache_key_lt (input cwd shell : String) :
    CompletionCache.cache_key input cwd shell < U64 :=
  sipHash13_lt _ _ _

/-- Strings of distinct lengths of `'a'`s are distinct. -/
theorem replicate_a_injective {m n : Nat}
    (h : String.mk (List.replicate m 'a') = String.mk (List.replicate n 'a')) :
    m = n := by
  have hdata : List.replicate m 'a' = List.replicate n 'a' := by
    injection h
  have := congrArg List.length hdata
  simpa using this

/-- C3 counterexample.  First: the triples `("ab", "c", "d")` and
`("a", "bc", "d")` concatenate to the same byte sequence `"abcd"` yet get
different keys (the 0xff field terminators separate the fields), so the key
is not a function of the concatenation of the three byte sequences.
Second: since the key is 64 bits, there even exist two triples differing
only in `shell` with *equal* keys (pigeonhole over more than `2 ^ 64`
shells), so "any two triples differing only in shell produce different
keys" fails as a universal statement. -/
theorem C3_counterexample :
    (strBytes "ab" ++ strBytes "c" ++ strBytes "d"
        = strBytes "a" ++ strBytes "bc" ++ strBytes "d"
      ∧ CompletionCache.cache_key "ab" "c" "d"
        ≠ CompletionCache.cache_key "a" "bc" "d")
    ∧ ∃ s₁ s₂ : String, s₁ ≠ s₂
        ∧ CompletionCache.cache_key "x" "y" s₁
          = CompletionCache.cache_key "x" "y" s₂ := by
  refine ⟨⟨by decide, by decide⟩, ?_⟩
  have hcard : Fintype.card (Fin U64) < Fintype.card (Fin (U64 + 1)) := by
    simp only [Fintype.card_fin]
    omega
  obtain ⟨a, b, hne, heq⟩ := Fintype.exists_ne_map_eq_of_card_lt
    (fun n : Fin (U64 + 1) =>
      (⟨CompletionCache.cache_key "x" "y" (String.mk (List.replicate n.val 'a')),
        cache_key_lt _ _ _⟩ : Fin U64)) hcard
  refine ⟨String.mk (List.replicate a.val 'a'),
    String.mk (List.replicate b.val 'a'), ?_, ?_⟩
  · intro hs
    exact hne (Fin.ext (replicate_a_injective hs))
  · exact congrArg Fin.val heq

/-- C3 (amended): the cache key is a pure (hence deterministic) function of
the triple; it equals SipHash-1-3 with zero keys over the UTF-8 bytes of
`input`, `cwd` and `shell` in that fixed order with each field followed by
a 0xff terminator byte (so it depends on the field split, not just the
concatenation); the handler takes `shell` to be the literal `"unknown"`
when absent from the request; and the concrete shells `"zsh"`, `"bash"`,
`"fish"`, `"unknown"` pairwise produce different keys (universal
shell-injectivity is impossible for a 64-bit key). -/
theorem C3_fingerprint_amended :
    (∀ input cwd shell : String,
        CompletionCache.cache_key input cwd shell
          = sipHash13 0 0 (strBytes input ++ [0xff] ++ strBytes cwd ++ [0xff]
              ++ strBytes shell ++ [0xff]))
    ∧ (∀ input cwd : String,
        handlerCacheKey input cwd none
          = CompletionCache.cache_key input cwd "unknown")
    ∧ (∀ input cwd shell : String,
        handlerCacheKey input cwd (some shell)
          = CompletionCache.cache_key input cwd shell)
    ∧ (CompletionCache.cache_key "git c" "/tmp" "zsh"
          ≠ CompletionCache.cache_key "git c" "/tmp" "bash"
        ∧ CompletionCache.cache_key "git c" "/tmp" "zsh"
          ≠ CompletionCache.cache_key "git c" "/tmp" "fish"
        ∧ CompletionCache.cache_key "git c" "/tmp" "zsh"
          ≠ CompletionCache.cache_key "git c" "/tmp" "unknown"
        ∧ CompletionCache.cache_key "git c" "/tmp" "bash"
          ≠ CompletionCache.cache_key "git c" "/tmp" "fish"
        ∧ CompletionCache.cache_key "git c" "/tmp" "bash"
          ≠ CompletionCache.cache_key "git c" "/tmp" "unknown"
        ∧ CompletionCache.cache_key "git c" "/tmp" "fish"
          ≠ CompletionCache.cache_key "git c" "/tmp" "unknown") := by
  refine ⟨?_, fun _ _ => rfl, fun _ _ _ => rfl, ?_⟩
  · intro input cwd shell
    unfold CompletionCache.cache_key DefaultHasher.finish DefaultHasher.hashStr
      DefaultHasher.write DefaultHasher.new
    simp [List.append_assoc]
  · exact ⟨by decide, by decide, by decide, by decide, by decide, by decide⟩

/-! ## Per-connection effect order (murmur-daemon/src/server.rs)

One loop iteration of `handle_connection` for a successfully parsed,
non-shutdown request performs, in program order: run the handler; if the
request is a `complete` whose params decoded, call `tokio::spawn` on the
prefetch task (server.rs lines 108-113); then serialize, write and flush the
reply (server.rs lines 126-129).  A task is eligible to run on the
multi-threaded scheduler from the moment it is spawned, so the order of
these effects is what decides whether prefetch work can begin before the
reply is written. -/

/-- The externally visible effects of one loop iteration. -/
inductive ConnEvent
  | handledRequest
  | spawnedPrefetch (predictions : List String)
  | wroteReply
  | flushedReply
deriving DecidableEq

/-- The effect sequence of one `handle_connection` iteration for a parsed
non-shutdown request: `isComplete` is `method == COMPLETE`, `params` the
result of the speculative `CompletionRequest` decode of the request's
params. -/
def connectionIterationEvents (isComplete : Bool)
    (params : Option CompletionRequest) : List ConnEvent :=
  ConnEvent.handledRequest ::
    ((match (if isComplete then params else none) with
      | some p => [ConnEvent.spawnedPrefetch (predict_next_inputs p.input)]
      | none => []) ++ [ConnEvent.wroteReply, ConnEvent.flushedReply])

/-- C9: evaluated at the concrete `complete` request
`{input: "git c", cursor_pos: 5, cwd: "/tmp", shell: "zsh"}`, the iteration
spawns the prefetch task (event index 1) *before* writing the reply (event
index 2) — the code calls `tokio::spawn` before `writer.write_all`, so the
reply is not guaranteed to be written before the prefetch work begins
executing. -/
theorem C9_prefetch_spawn_order :
    connectionIterationEvents true (some ⟨"git c", 5, "/tmp", [], some "zsh"⟩)
        = [ConnEvent.handledRequest,
            ConnEvent.spawnedPrefetch
              ["git commit", "git checkout", "git cherry-pick", "git clone"],
            ConnEvent.wroteReply, ConnEvent.flushedReply]
      ∧ (connectionIterationEvents true
            (some ⟨"git c", 5, "/tmp", [], some "zsh"⟩)).indexOf
          (ConnEvent.spawnedPrefetch
            ["git commit", "git checkout", "git cherry-pick", "git clone"])
        < (connectionIterationEvents true
            (some ⟨"git c", 5, "/tmp", [], some "zsh"⟩)).indexOf
          ConnEvent.wroteReply := by
  constructor
  · decide
  · decide

end Murmur
